import Mathlib

/-!
Verification of the reactive-runtime scheduler and companion primitives.

The definitions below are a shallow embedding of the repository's code:

* `Tier`, `Task`, `QTree`, `St`, `St.enqueue`, `drainPure`, `snapshotDrain`,
  `runQ`, `runChildren`, `pureLoop`, `flush`, `getClock`, `fsAux`,
  `flushSyncDev` embed `src/core/scheduler.ts` (the `Queue` class, the global
  `clock`/`scheduled` flags, `flushSync` with the dev-mode guard).
  Queue entries in the source are arbitrary `() => void` closures whose only
  scheduler-visible action is calling `enqueue` on some queue; a `Task` models
  such a closure by the list of enqueues it performs (target queue given as a
  path from the flushed root, tier, spawned task) together with an
  identifier that is emitted into the event trace when the closure runs.
* the `Task.cyclic` constructor and nothing else is modelled from the spec
  rather than the source (see its doc-string): it stands for the
  clock-gated self-rescheduling computation produced by an effect that
  writes the signal it reads, whose per-node clock guard lives in the
  reactive-graph module that is not part of the sources.
* `NQueue`, `computeBody`, `effectBody`, `renderEffectBody` embed
  `Queue.notify` from `src/core/scheduler.ts` and the closures built by
  `createEffect` / `createRenderEffect` in the signals module.
* `subjectWait` / `subjectNext` embed the `Subject` class from
  `src/events/core.ts`.
* `withContext` embeds `src/events/context.ts`.
* `asyncResolve` / `asyncReject` / `upResolve` / `upReject` embed the promise
  resumptions of `createAsync` and `unwrapPromise`.

Loops of the source (`while (this.run(EFFECT_PURE))`, the recursive queue
walk, `flushSync`) are embedded with explicit fuel and return `Option`;
`none` means the fuel ran out, and theorems are stated for successful runs.
-/

namespace SignalsProof

/-- Effect tiers: `EFFECT_PURE = 0`, `EFFECT_RENDER = 1`, `EFFECT_USER = 2`
from `core/constants.ts` (re-exported and used by `scheduler.ts`). -/
inductive Tier where
  | pure
  | render
  | user
deriving DecidableEq

/-- A queue entry.  In the source an entry is a `() => void` closure; its
scheduler-visible behaviour is the sequence of `enqueue(type, node)` calls it
performs.  `Task.mk id spawns` runs by emitting the event `Ev.task id` and
performing the listed enqueues (path of the target queue from the modelled
root, tier, task).

`Task.cyclic` is Modelled from the spec: it stands for the closure of an
effect that writes the signal it reads.  The reactive-graph module holding
the per-node "created-at clock timestamp" guard ("Used to short-circuit
dependency re-validation within a flush") is not among the sources, so the
guard is taken from the spec: running `cyclic id p tier stamp` does nothing
while the global clock still equals `stamp`, and once the clock has moved it
emits `Ev.task id` and re-enqueues itself with the current clock. -/
inductive Task where
  | mk (id : Nat) (spawns : List (List Nat × Tier × Task)) : Task
  | cyclic (id : Nat) (path : List Nat) (tier : Tier) (stamp : Nat) : Task

/-- A node of the queue tree: `_running`, the three slots `_queues[0..2]`
(pure / render / user) and `_children`, from the `Queue` class. -/
inductive QTree where
  | mk (running : Bool) (q0 q1 q2 : List Task) (children : List QTree) : QTree

def QTree.running : QTree → Bool
  | .mk r _ _ _ _ => r

def QTree.q0 : QTree → List Task
  | .mk _ a _ _ _ => a

def QTree.q1 : QTree → List Task
  | .mk _ _ b _ _ => b

def QTree.q2 : QTree → List Task
  | .mk _ _ _ c _ => c

def QTree.children : QTree → List QTree
  | .mk _ _ _ _ cs => cs

def QTree.slot (t : QTree) : Tier → List Task
  | .pure => t.q0
  | .render => t.q1
  | .user => t.q2

/-- Global scheduler state: the tree of queues rooted at the queue being
flushed, the module-level `clock`, and the module-level `scheduled` flag. -/
structure St where
  tree : QTree
  clock : Nat
  scheduled : Bool

/-- Scheduler events recorded in traces: a queue entry ran (`task id`), or
`incrementClock()` ran (`tick`). -/
inductive Ev where
  | task (id : Nat)
  | tick
deriving DecidableEq

/-- Look a queue up by its path of child indices. -/
def getNode : QTree → List Nat → Option QTree
  | t, [] => some t
  | t, i :: p =>
    match t.children[i]? with
    | some c => getNode c p
    | none => none

/-- Rewrite the queue at the given path with `f` (identity if the path does
not resolve). -/
def modifyNode (f : QTree → QTree) : QTree → List Nat → QTree
  | t, [] => f t
  | .mk r a b c cs, i :: p =>
    match cs[i]? with
    | some ch => .mk r a b c (cs.set i (modifyNode f ch p))
    | none => .mk r a b c cs

/-- `enqueue(type, node)` on one queue: push onto `_queues[0]` always and
additionally onto the named slot when the tier is non-pure. -/
def pushLocal (tier : Tier) (t : Task) : QTree → QTree
  | .mk r a b c cs =>
    match tier with
    | .pure => .mk r (a ++ [t]) b c cs
    | .render => .mk r (a ++ [t]) (b ++ [t]) c cs
    | .user => .mk r (a ++ [t]) b (c ++ [t]) cs

/-- `Queue.enqueue` including the `schedule()` call: the module-level
`scheduled` flag ends up `true` (the microtask registration is host
behaviour outside the model). -/
def St.enqueue (s : St) (p : List Nat) (tier : Tier) (t : Task) : St :=
  { s with tree := modifyNode (pushLocal tier t) s.tree p, scheduled := true }

/-- Run one queue entry: emit its event and perform its enqueues.  For
`cyclic` see the `Task` doc-string. -/
def runTask (s : St) (t : Task) : St × List Ev :=
  match t with
  | .mk id spawns =>
    (spawns.foldl (fun acc sp => acc.enqueue sp.1 sp.2.1 sp.2.2) s, [Ev.task id])
  | .cyclic id p tier stamp =>
    if s.clock = stamp then (s, [])
    else (s.enqueue p tier (Task.cyclic id p tier s.clock), [Ev.task id])

/-- Replace `_queues[0]` of one queue. -/
def setQ0 (l : List Task) : QTree → QTree
  | .mk r _ b c cs => .mk r l b c cs

/-- Pop the front of the pure slot of the queue at `p`. -/
def popPure (p : List Nat) (s : St) : Option (Task × St) :=
  match getNode s.tree p with
  | some (.mk _ (t :: rest) _ _ _) =>
    some (t, { s with tree := modifyNode (setQ0 rest) s.tree p })
  | _ => none

/-- The pure-slot drain of `Queue.run(EFFECT_PURE)`.  The source iterates
`runQueue` over the live `_queues[0]` array (entries pushed during the drain
are reached by the growing index) and assigns `[]` afterwards; popping from
the front until the slot is empty is the same behaviour. -/
def drainPure (gas : Nat) (p : List Nat) (s : St) : Option (St × List Ev) :=
  match gas with
  | 0 => none
  | g + 1 =>
    match popPure p s with
    | none => some (s, [])
    | some (t, s1) =>
      let r := runTask s1 t
      (drainPure g p r.1).map (fun x => (x.1, r.2 ++ x.2))

/-- Replace the named slot of one queue. -/
def setSlot (tier : Tier) (l : List Task) : QTree → QTree
  | .mk r a b c cs =>
    match tier with
    | .pure => .mk r l b c cs
    | .render => .mk r a l c cs
    | .user => .mk r a b l cs

/-- Run a snapshot of entries in order against the evolving state. -/
def runList (s : St) (ts : List Task) : St × List Ev :=
  match ts with
  | [] => (s, [])
  | t :: rest =>
    let r := runTask s t
    let r2 := runList r.1 rest
    (r2.1, r.2 ++ r2.2)

/-- The render/user drain of `Queue.run`: snapshot the slot, clear it, then
run the snapshot (entries enqueued meanwhile land in the fresh slot). -/
def snapshotDrain (tier : Tier) (p : List Nat) (s : St) : St × List Ev :=
  match getNode s.tree p with
  | none => (s, [])
  | some n =>
    runList { s with tree := modifyNode (setSlot tier []) s.tree p } (n.slot tier)

/-- The own-slot part of `Queue.run(type)`. -/
def ownDrain (dgas : Nat) (tier : Tier) (p : List Nat) (s : St) :
    Option (St × List Ev) :=
  match tier with
  | .pure => drainPure dgas p s
  | _ => some (snapshotDrain tier p s)

/-- `_children.length` of the queue at `p`. -/
def childCount (s : St) (p : List Nat) : Nat :=
  match getNode s.tree p with
  | some n => n.children.length
  | none => 0

mutual

/-- `Queue.run(type)` at the queue addressed by `p`: drain the named slot,
run the children recursively in insertion order folding their pure-tier
results with `||`, and for the pure tier return
`rerun || !!this._queues[0].length` (checked on the state after the children
ran); non-pure runs return no boolean (modelled as `false`). -/
def runQ (gas dgas : Nat) (tier : Tier) (p : List Nat) (s : St) :
    Option (St × List Ev × Bool) :=
  match gas with
  | 0 => none
  | g + 1 =>
    match ownDrain dgas tier p s with
    | none => none
    | some (s1, tr1) =>
      match runChildren g dgas tier p (List.range (childCount s1 p)) s1 with
      | none => none
      | some (s2, tr2, rer) =>
        match tier with
        | .pure =>
          let more :=
            match getNode s2.tree p with
            | some n => !n.q0.isEmpty
            | none => false
          some (s2, tr1 ++ tr2, rer || more)
        | _ => some (s2, tr1 ++ tr2, false)

/-- The `for` loop over `_children` inside `Queue.run`. -/
def runChildren (gas dgas : Nat) (tier : Tier) (p : List Nat)
    (idxs : List Nat) (s : St) : Option (St × List Ev × Bool) :=
  match gas with
  | 0 => none
  | g + 1 =>
    match idxs with
    | [] => some (s, [], false)
    | i :: rest =>
      match runQ g dgas tier (p ++ [i]) s with
      | none => none
      | some (s1, tr1, b1) =>
        match runChildren g dgas tier p rest s1 with
        | none => none
        | some (s2, tr2, b2) =>
          some (s2, tr1 ++ tr2, b1 || b2)

end

/-- The `while (this.run(EFFECT_PURE)) {}` loop of `Queue.flush`. -/
def pureLoop (gas gq dgas : Nat) (s : St) : Option (St × List Ev) :=
  match gas with
  | 0 => none
  | g + 1 =>
    match runQ gq dgas .pure [] s with
    | none => none
    | some (s1, tr, rer) =>
      if rer then
        match pureLoop g gq dgas s1 with
        | none => none
        | some (s2, tr2) => some (s2, tr ++ tr2)
      else some (s1, tr)

/-- Set `_running` of the root queue. -/
def setRunning (v : Bool) : QTree → QTree
  | .mk _ a b c cs => .mk v a b c cs

/-- `Queue.flush` called on the root of the modelled tree: return at once if
`_running`; otherwise set `_running`, run the pure loop, `incrementClock()`
(the `Ev.tick` event), clear `scheduled`, run the render pass, run the user
pass, and finally clear `_running`. -/
def flush (gl gq dgas : Nat) (s : St) : Option (St × List Ev) :=
  if s.tree.running then some (s, [])
  else
    match pureLoop gl gq dgas { s with tree := setRunning true s.tree } with
    | none => none
    | some (s1, trP) =>
      let s2 : St := { s1 with clock := s1.clock + 1, scheduled := false }
      match runQ gq dgas .render [] s2 with
      | none => none
      | some (s3, trR, _) =>
        match runQ gq dgas .user [] s3 with
        | none => none
        | some (s4, trU, _) =>
          some ({ s4 with tree := setRunning false s4.tree },
                trP ++ Ev.tick :: (trR ++ trU))

/-- `getClock()`. -/
def getClock (s : St) : Nat := s.clock

/-- The loop body of `flushSync` with `__DEV__` set: `gas` counts the
flushes still allowed before `++count === 1e5` fires (the guard throws
before the 100000th flush, so the loop performs at most 99999 flushes). -/
def fsAux (gas gl gq dgas : Nat) (s : St) :
    Option (Except String (St × List Ev)) :=
  if s.scheduled then
    match gas with
    | 0 => some (.error "Potential Infinite Loop Detected.")
    | g + 1 =>
      match flush gl gq dgas s with
      | none => none
      | some (s1, tr1) =>
        match fsAux g gl gq dgas s1 with
        | none => none
        | some (.error m) => some (.error m)
        | some (.ok (s2, tr2)) => some (.ok (s2, tr1 ++ tr2))
  else some (.ok (s, []))

/-- `flushSync()` in dev mode. -/
def flushSyncDev (gl gq dgas : Nat) (s : St) :
    Option (Except String (St × List Ev)) :=
  fsAux 99999 gl gq dgas s

/-! ## Notification chains and the effect closures -/

/-- `ERROR_BIT` from the flags module (the exact numeral is immaterial to the
claims; only the triple passed to `notify` matters). -/
def ERROR_BIT : Nat := 2

/-- `LOADING_BIT` from the flags module. -/
def LOADING_BIT : Nat := 1

/-- The argument triple `(source, mask, value)` of `Queue.notify`; the source
cell is identified by a number. -/
structure NotifyArgs where
  source : Nat
  mask : Nat
  value : Nat

/-- A queue as seen by `notify`: either a base `Queue` (whose `notify`
forwards to `_parent` and returns `false` when `_parent` is `null`), or an
arbitrary `IQueue` implementation (a boundary) with its own handler. -/
inductive NQueue where
  | plain (parent : Option NQueue)
  | custom (handler : NotifyArgs → Bool)

/-- `Queue.notify(...args)` from `scheduler.ts`. -/
def NQueue.notify : NQueue → NotifyArgs → Bool
  | .plain none, _ => false
  | .plain (some p), a => NQueue.notify p a
  | .custom f, a => f a

/-- A chain of `n + 1` base queues (no boundary anywhere). -/
def plainChain : Nat → NQueue
  | 0 => .plain none
  | n + 1 => .plain (some (plainChain n))

/-- The closure-captured mutable cell of `createEffect` /
`createRenderEffect`: `current`, `prev`, and the saved `cleanup` function
(cleanup functions are identified by numbers; `none` is `undefined`). -/
structure EffectCell where
  current : Nat
  prev : Nat
  cleanup : Option Nat
deriving DecidableEq

/-- Observable actions of the effect closures. -/
inductive EffEv where
  | cleanupRun (id : Nat)
  | effectRun (cur prev : Nat)
  | handlerRun (e : Nat)
  | notifyCall (res : Bool)
deriving DecidableEq

/-- Outcome of calling the tracking `compute(prev)` function. -/
inductive COut where
  | val (v : Nat)
  | notReady
  | err (e : Nat)

/-- Outcome of calling the optional error handler: a normal return (whose
value is assigned to `cleanup`; `void` handlers yield `none`) or a throw. -/
inductive HRes where
  | ret (cleanup : Option Nat)
  | throws (e : Nat)

/-- Outcome of calling the side-effecting `effect(current, prev)` function. -/
inductive ERes where
  | ret (cleanup : Option Nat)
  | throws (e : Nat)

/-- Result of running one of the effect closures: the updated cell, the
actions performed, whether `queue.enqueue(..)` was reached, and the
exception (if any) propagating out of the closure. -/
structure BodyResult where
  cell : EffectCell
  events : List EffEv
  enqueued : Bool
  thrown : Option Nat
deriving DecidableEq

/-- The `cleanup?.()` step: the saved cleanup runs if one is present. -/
def cleanupEvs (c : EffectCell) : List EffEv :=
  match c.cleanup with
  | some id => [EffEv.cleanupRun id]
  | none => []

/-- The computation closure of `createEffect`: `try { current = compute(prev) }`
with the `NotReadyError` / generic-error branches, followed unconditionally
(unless an exception escaped the catch) by `queue.enqueue(EFFECT_USER, ...)`.
On a generic error the previous cleanup runs, then `cleanup = error?.(e)` is
attempted: with no handler the optional call is `undefined` and nothing
throws; if the handler throws, `queue.notify(node, ERROR_BIT, ERROR_BIT)` is
consulted and on `false` the error is re-thrown, skipping the enqueue. -/
def computeBody (q : NQueue) (handler : Option (Nat → HRes)) (out : COut)
    (c : EffectCell) : BodyResult :=
  match out with
  | .val v => { cell := { c with current := v }, events := [], enqueued := true, thrown := none }
  | .notReady => { cell := c, events := [], enqueued := true, thrown := none }
  | .err e =>
    let evs := cleanupEvs c
    match handler with
    | none =>
      { cell := { c with cleanup := none }, events := evs, enqueued := true, thrown := none }
    | some h =>
      match h e with
      | .ret cl =>
        { cell := { c with cleanup := cl }, events := evs ++ [.handlerRun e],
          enqueued := true, thrown := none }
      | .throws e2 =>
        let b := q.notify ⟨0, ERROR_BIT, ERROR_BIT⟩
        if b then
          { cell := c, events := evs ++ [.handlerRun e, .notifyCall true],
            enqueued := true, thrown := none }
        else
          { cell := c, events := evs ++ [.handlerRun e, .notifyCall false],
            enqueued := false, thrown := some e2 }

/-- The closure `createEffect` enqueues to the user slot:
`cleanup?.(); try { cleanup = effect(current, prev) } catch (e)
{ if (!queue?.notify(node, ERROR_BIT, ERROR_BIT)) throw e } finally
{ prev = current }`. -/
def effectBody (q : NQueue) (res : ERes) (c : EffectCell) : BodyResult :=
  let evs0 := cleanupEvs c
  match res with
  | .ret cl =>
    { cell := { c with cleanup := cl, prev := c.current },
      events := evs0 ++ [.effectRun c.current c.prev],
      enqueued := false, thrown := none }
  | .throws e =>
    let b := q.notify ⟨0, ERROR_BIT, ERROR_BIT⟩
    if b then
      { cell := { c with prev := c.current },
        events := evs0 ++ [.effectRun c.current c.prev, .notifyCall true],
        enqueued := false, thrown := none }
    else
      { cell := { c with prev := c.current },
        events := evs0 ++ [.effectRun c.current c.prev, .notifyCall false],
        enqueued := false, thrown := some e }

/-- The closure `createRenderEffect` enqueues to the render slot; its body
is textually identical to the user-tier one. -/
def renderEffectBody (q : NQueue) (res : ERes) (c : EffectCell) : BodyResult :=
  let evs0 := cleanupEvs c
  match res with
  | .ret cl =>
    { cell := { c with cleanup := cl, prev := c.current },
      events := evs0 ++ [.effectRun c.current c.prev],
      enqueued := false, thrown := none }
  | .throws e =>
    let b := q.notify ⟨0, ERROR_BIT, ERROR_BIT⟩
    if b then
      { cell := { c with prev := c.current },
        events := evs0 ++ [.effectRun c.current c.prev, .notifyCall true],
        enqueued := false, thrown := none }
    else
      { cell := { c with prev := c.current },
        events := evs0 ++ [.effectRun c.current c.prev, .notifyCall false],
        enqueued := false, thrown := some e }

/-- Modelled from the spec: `Owner.dispose` ("run cleanup stack LIFO") from
the owner module, which is not among the sources.  Disposal runs exactly the
disposers registered with `onCleanup`, last registered first. -/
def disposeOwner (cleanups : List Nat) : List EffEv :=
  cleanups.reverse.map EffEv.cleanupRun

/-- What `createEffect` registers on its owner via `onCleanup`: nothing.
This is read off the source of `createEffect` / `createRenderEffect`, which
contain no `onCleanup` call (the `cleanup` variable is reachable only from
the two closures above). -/
def createEffectRegistrations : List Nat := []

/-! ## Async resumptions (`createAsync`, `unwrapPromise`) -/

/-- State seen by an in-flight async resumption: the closure-captured
`aborted` flag, the `setSignal` writes performed so far (`createAsync`), and
the observer `next`/`error` deliveries performed so far (`unwrapPromise`,
`ok` = `next`, `error` = `error`). -/
structure AsyncCell where
  aborted : Bool
  written : List Nat
  obsCalls : List (Except Nat Nat)

/-- `createAsync`'s fulfilled-promise resumption:
`value3 => { if (abort) return; setSignal(node, value3); }`. -/
def asyncResolve (c : AsyncCell) (v : Nat) : AsyncCell :=
  if c.aborted then c else { c with written := c.written ++ [v] }

/-- `createAsync`'s rejected-promise resumption:
`error => { if (abort) return; setSignal(node, error); }`. -/
def asyncReject (c : AsyncCell) (e : Nat) : AsyncCell :=
  if c.aborted then c else { c with written := c.written ++ [e] }

/-- `unwrapPromise`'s fulfilled resumption:
`n => { if (aborted) return; withContext(context, () => observer.next(n)); }`. -/
def upResolve (c : AsyncCell) (v : Nat) : AsyncCell :=
  if c.aborted then c else { c with obsCalls := c.obsCalls ++ [.ok v] }

/-- `unwrapPromise`'s rejected resumption:
`e => { if (aborted) return; withContext(context, () => observer.error(e)); }`. -/
def upReject (c : AsyncCell) (e : Nat) : AsyncCell :=
  if c.aborted then c else { c with obsCalls := c.obsCalls ++ [.error e] }

/-- Modelled from the spec: disposing the owner of the in-flight operation
runs the cleanups registered with `onCleanup` (owner module not among the
sources); both `createAsync` and `unwrapPromise` register exactly
`() => (abort = true)`, so disposal sets the flag. -/
def disposeAsyncOwner (c : AsyncCell) : AsyncCell :=
  { c with aborted := true }

/-! ## `Subject` (`src/events/core.ts`) -/

/-- State of a `Subject`: its `waiting` flag and the subscribed observers in
insertion order (`Set` iteration order), identified by numbers. -/
structure SubjectSt where
  waiting : Bool
  observers : List Nat
deriving DecidableEq

/-- Deliveries a `Subject` forwards to a subscribed observer. -/
inductive SubEv where
  | waitEv (obs : Nat)
  | nextEv (obs : Nat) (v : Nat)
  | errEv (obs : Nat) (e : Nat)
deriving DecidableEq

/-- `Subject.wait()`: `if (this.waiting) return; this.waiting = true;
this.observers.forEach(observer => observer.wait());`. -/
def subjectWait (s : SubjectSt) : SubjectSt × List SubEv :=
  if s.waiting then (s, [])
  else ({ s with waiting := true }, s.observers.map SubEv.waitEv)

/-- `Subject.next(value)`: `this.waiting = false;
this.observers.forEach(observer => observer.next(value));`. -/
def subjectNext (s : SubjectSt) (v : Nat) : SubjectSt × List SubEv :=
  ({ s with waiting := false }, s.observers.map (fun o => SubEv.nextEv o v))

/-- `Subject.error(error)`. -/
def subjectError (s : SubjectSt) (e : Nat) : SubjectSt × List SubEv :=
  (s, s.observers.map (fun o => SubEv.errEv o e))

/-! ## `withContext` (`src/events/context.ts`) -/

/-- `withContext(context, fn)` over the module-level `currentContext` slot
(contexts are identified by numbers, `none` is `undefined`).  The body `fn`
is modelled as a function from the context it is started under to its
outcome (`Except`: a throw skips the restoring assignment) together with the
value of `currentContext` when it finishes (it may itself have reassigned
the slot). -/
def withContext (ctx : Option Nat)
    (fn : Option Nat → Except Nat Nat × Option Nat) (cur : Option Nat) :
    Except Nat Nat × Option Nat :=
  let r := fn ctx
  match r.1 with
  | .ok v => (.ok v, cur)
  | .error e => (.error e, r.2)

/-- `getContext()` given the value of the `currentContext` slot. -/
def getContextOf (cur : Option Nat) : Option Nat := cur

/-! ## Preservation lemmas: scheduler operations never touch the clock and
never change the shape of the queue tree. -/

/-- Scheduler steps other than `incrementClock` preserve the clock, and no
step adds or removes queues, so path resolution is stable. -/
def Pres (s s' : St) : Prop :=
  s'.clock = s.clock ∧ ∀ p, (getNode s'.tree p).isSome = (getNode s.tree p).isSome

theorem pres_refl (s : St) : Pres s s := ⟨rfl, fun _ => rfl⟩

theorem pres_trans {s1 s2 s3 : St} (h1 : Pres s1 s2) (h2 : Pres s2 s3) :
    Pres s1 s3 :=
  ⟨h2.1.trans h1.1, fun p => (h2.2 p).trans (h1.2 p)⟩

theorem getNode_modify_isSome (f : QTree → QTree)
    (hf : ∀ t, (f t).children = t.children) :
    ∀ (q : List Nat) (t : QTree) (p : List Nat),
      (getNode (modifyNode f t q) p).isSome = (getNode t p).isSome := by
  intro q
  induction q with
  | nil =>
    intro t p
    cases p with
    | nil => rfl
    | cons i p' => simp [getNode, modifyNode, hf]
  | cons j q' ih =>
    intro t p
    cases t with
    | mk r a b c cs =>
      cases hj : cs[j]? with
      | none => simp [modifyNode, hj]
      | some ch =>
        cases p with
        | nil => simp [modifyNode, hj, getNode]
        | cons i p' =>
          have hjl : j < cs.length := (List.getElem?_eq_some.1 hj).1
          by_cases hij : i = j
          · subst hij
            simp [modifyNode, hj, getNode, QTree.children,
              List.getElem?_set_self hjl, ih ch p']
          · simp [modifyNode, hj, getNode, QTree.children,
              List.getElem?_set_ne (fun h => hij h.symm)]

theorem pushLocal_children (tier : Tier) (t : Task) (n : QTree) :
    (pushLocal tier t n).children = n.children := by
  cases n; cases tier <;> rfl

theorem setQ0_children (l : List Task) (n : QTree) :
    (setQ0 l n).children = n.children := by
  cases n; rfl

theorem setSlot_children (tier : Tier) (l : List Task) (n : QTree) :
    (setSlot tier l n).children = n.children := by
  cases n; cases tier <;> rfl

theorem setRunning_children (v : Bool) (n : QTree) :
    (setRunning v n).children = n.children := by
  cases n; rfl

theorem enqueue_pres (s : St) (p : List Nat) (tier : Tier) (t : Task) :
    Pres s (s.enqueue p tier t) :=
  ⟨rfl, fun q =>
    getNode_modify_isSome (pushLocal tier t) (pushLocal_children tier t) p s.tree q⟩

theorem foldl_enqueue_pres (l : List (List Nat × Tier × Task)) (s : St) :
    Pres s (l.foldl (fun acc sp => acc.enqueue sp.1 sp.2.1 sp.2.2) s) := by
  induction l generalizing s with
  | nil => exact pres_refl s
  | cons hd tl ih =>
    exact pres_trans (enqueue_pres s hd.1 hd.2.1 hd.2.2) (ih _)

theorem runTask_pres (s : St) (t : Task) : Pres s (runTask s t).1 := by
  cases t with
  | mk id spawns =>
    simpa [runTask] using foldl_enqueue_pres spawns s
  | cyclic id p tier stamp =>
    by_cases h : s.clock = stamp
    · simp [runTask, h, pres_refl]
    · simpa [runTask, h] using enqueue_pres s p tier (Task.cyclic id p tier s.clock)

theorem runList_pres (s : St) (ts : List Task) : Pres s (runList s ts).1 := by
  induction ts generalizing s with
  | nil => exact pres_refl s
  | cons t rest ih =>
    exact pres_trans (runTask_pres s t) (ih _)

theorem popPure_pres {p : List Nat} {s : St} {t : Task} {s1 : St}
    (h : popPure p s = some (t, s1)) : Pres s s1 := by
  unfold popPure at h
  split at h
  · cases h
    exact ⟨rfl, fun q =>
      getNode_modify_isSome _ (setQ0_children _) p s.tree q⟩
  · cases h

theorem drainPure_pres {gas : Nat} {p : List Nat} :
    ∀ {s r}, drainPure gas p s = some r → Pres s r.1 := by
  induction gas with
  | zero => intro s r h; simp [drainPure] at h
  | succ g ih =>
    intro s r h
    rw [drainPure] at h
    split at h
    · cases h; exact pres_refl s
    · rename_i t s1 hpop
      rcases Option.map_eq_some'.1 h with ⟨x, hx, hr⟩
      have hx' := ih hx
      subst hr
      exact pres_trans (popPure_pres hpop)
        (pres_trans (runTask_pres s1 t) hx')

theorem snapshotDrain_pres (tier : Tier) (p : List Nat) (s : St) :
    Pres s (snapshotDrain tier p s).1 := by
  cases hn : getNode s.tree p with
  | none => simp [snapshotDrain, hn, pres_refl]
  | some n =>
    have h1 : Pres s { s with tree := modifyNode (setSlot tier []) s.tree p } :=
      ⟨rfl, fun q => getNode_modify_isSome _ (setSlot_children tier []) p s.tree q⟩
    simpa [snapshotDrain, hn] using pres_trans h1 (runList_pres _ (n.slot tier))

theorem ownDrain_pres {dgas : Nat} {tier : Tier} {p : List Nat} {s : St} {r}
    (h : ownDrain dgas tier p s = some r) : Pres s r.1 := by
  cases tier with
  | pure => exact drainPure_pres h
  | render => cases h; exact snapshotDrain_pres _ p s
  | user => cases h; exact snapshotDrain_pres _ p s

theorem runQ_runChildren_pres (g : Nat) :
    (∀ dgas tier p s r, runQ g dgas tier p s = some r → Pres s r.1) ∧
    (∀ dgas tier p idxs s r, runChildren g dgas tier p idxs s = some r → Pres s r.1) := by
  induction g with
  | zero =>
    constructor <;> intro dgas tier p
    · intro s r h; simp [runQ] at h
    · intro idxs s r h; simp [runChildren] at h
  | succ g ih =>
    constructor
    · intro dgas tier p s r h
      rw [runQ] at h
      split at h
      · exact absurd h (by simp)
      · rename_i s1 tr1 hown
        split at h
        · exact absurd h (by simp)
        · rename_i s2 tr2 rer hch
          have h1 := ownDrain_pres hown
          have h2 := ih.2 _ _ _ _ _ _ hch
          cases tier <;> simp at h <;> cases h <;>
            exact pres_trans h1 h2
    · intro dgas tier p idxs s r h
      cases idxs with
      | nil => rw [runChildren] at h; cases h; exact pres_refl s
      | cons i rest =>
        rw [runChildren] at h
        split at h
        · exact absurd h (by simp)
        · rename_i s1 tr1 b1 hq
          split at h
          · exact absurd h (by simp)
          · rename_i s2 tr2 b2 hcr
            have h1 := ih.1 _ _ _ _ _ hq
            have h2 := ih.2 _ _ _ _ _ _ hcr
            cases h
            exact pres_trans h1 h2

theorem runQ_pres {g dgas : Nat} {tier : Tier} {p : List Nat} {s : St} {r}
    (h : runQ g dgas tier p s = some r) : Pres s r.1 :=
  (runQ_runChildren_pres g).1 _ _ _ _ _ h

theorem runChildren_pres {g dgas : Nat} {tier : Tier} {p idxs : List Nat} {s : St} {r}
    (h : runChildren g dgas tier p idxs s = some r) : Pres s r.1 :=
  (runQ_runChildren_pres g).2 _ _ _ _ _ _ h

theorem drainPure_empty {gas : Nat} {p : List Nat} :
    ∀ {s r}, drainPure gas p s = some r →
      (getNode s.tree p).isSome = true →
      (getNode r.1.tree p).map QTree.q0 = some [] := by
  induction gas with
  | zero => intro s r h _; simp [drainPure] at h
  | succ g ih =>
    intro s r h hp
    rw [drainPure] at h
    split at h
    · rename_i hpop
      cases h
      rcases Option.isSome_iff_exists.1 hp with ⟨n, hn⟩
      cases n with
      | mk nr q0 q1 q2 cs =>
        cases q0 with
        | nil => simp [hn, QTree.q0]
        | cons t rest => rw [popPure, hn] at hpop; cases hpop
    · rename_i t s1 hpop
      rcases Option.map_eq_some'.1 h with ⟨x, hx, hr⟩
      have hp1 : (getNode s1.tree p).isSome = true := by
        rw [(popPure_pres hpop).2 p]; exact hp
      have hp2 : (getNode (runTask s1 t).1.tree p).isSome = true := by
        rw [(runTask_pres s1 t).2 p]; exact hp1
      have := ih hx hp2
      subst hr
      exact this

theorem pureLoop_pres {gas gq dgas : Nat} :
    ∀ {s r}, pureLoop gas gq dgas s = some r → Pres s r.1 := by
  induction gas with
  | zero => intro s r h; simp [pureLoop] at h
  | succ g ih =>
    intro s r h
    rw [pureLoop] at h
    split at h
    · exact absurd h (by simp)
    · rename_i s1 tr rer hq
      split at h
      · split at h
        · exact absurd h (by simp)
        · rename_i s2 tr2 hl
          have hl' := ih hl
          cases h
          exact pres_trans (runQ_pres hq) hl'
      · cases h
        exact runQ_pres hq

theorem runQ_pure_root_false {g dgas : Nat} {s : St} {s' : St} {tr : List Ev}
    (h : runQ g dgas .pure [] s = some (s', tr, false)) :
    s'.tree.q0.isEmpty = true := by
  cases g with
  | zero => simp [runQ] at h
  | succ g =>
    rw [runQ] at h
    split at h
    · exact absurd h (by simp)
    · rename_i s1 tr1 hown
      split at h
      · exact absurd h (by simp)
      · rename_i s2 tr2 rer hch
        simp only [getNode] at h
        rw [Option.some_inj] at h
        have hb : (rer || !s2.tree.q0.isEmpty) = false :=
          congrArg (fun x => x.2.2) h
        have hs : s' = s2 := (congrArg (fun x => x.1) h).symm
        subst hs
        rcases Bool.or_eq_false_iff.1 hb with ⟨_, hmore⟩
        simpa using hmore

theorem pureLoop_post {gas gq dgas : Nat} :
    ∀ {s r}, pureLoop gas gq dgas s = some r →
      r.1.tree.q0.isEmpty = true := by
  induction gas with
  | zero => intro s r h; simp [pureLoop] at h
  | succ g ih =>
    intro s r h
    rw [pureLoop] at h
    split at h
    · exact absurd h (by simp)
    · rename_i s1 tr rer hq
      split at h
      · split at h
        · exact absurd h (by simp)
        · rename_i s2 tr2 hl
          have := ih hl
          cases h
          exact this
      · rename_i hrer
        cases h
        have : rer = false := by
          cases rer
          · rfl
          · exact absurd rfl hrer
        subst this
        exact runQ_pure_root_false hq

/-- The phase structure of a successful non-re-entrant `flush`. -/
theorem flush_struct {gl gq dgas : Nat} {s s' : St} {tr : List Ev}
    (hrun : s.tree.running = false)
    (h : flush gl gq dgas s = some (s', tr)) :
    ∃ s1 trP s3 trR b3 s4 trU b4,
      pureLoop gl gq dgas { s with tree := setRunning true s.tree } = some (s1, trP) ∧
      s1.tree.q0.isEmpty = true ∧
      s1.clock = s.clock ∧
      runQ gq dgas .render [] { s1 with clock := s1.clock + 1, scheduled := false } =
        some (s3, trR, b3) ∧
      runQ gq dgas .user [] s3 = some (s4, trU, b4) ∧
      s' = { s4 with tree := setRunning false s4.tree } ∧
      tr = trP ++ Ev.tick :: (trR ++ trU) ∧
      s'.clock = s.clock + 1 := by
  rw [flush, hrun] at h
  simp only [Bool.false_eq_true, if_false] at h
  split at h
  · exact absurd h (by simp)
  · rename_i s1 trP hpl
    split at h
    · exact absurd h (by simp)
    · rename_i s3 trR b3 hr
      split at h
      · exact absurd h (by simp)
      · rename_i s4 trU b4 hu
        rw [Option.some_inj] at h
        have hclock1 : s1.clock = s.clock := (pureLoop_pres hpl).1
        have hclock3 : s3.clock = s1.clock + 1 := (runQ_pres hr).1
        have hclock4 : s4.clock = s3.clock := (runQ_pres hu).1
        injection h with h1 h2
        subst h1
        subst h2
        refine ⟨s1, trP, s3, trR, b3, s4, trU, b4, hpl, pureLoop_post hpl,
          hclock1, hr, hu, rfl, rfl, ?_⟩
        show s4.clock = s.clock + 1
        rw [hclock4, hclock3, hclock1]

theorem flush_reentrant {gl gq dgas : Nat} {s : St}
    (hrun : s.tree.running = true) :
    flush gl gq dgas s = some (s, []) := by
  rw [flush, hrun]
  simp

theorem flush_clock {gl gq dgas : Nat} {s : St} {r}
    (h : flush gl gq dgas s = some r) :
    (s.tree.running = false → r.1.clock = s.clock + 1) ∧
    (s.tree.running = true → r.1 = s) ∧
    s.clock ≤ r.1.clock := by
  cases hrun : s.tree.running with
  | false =>
    rcases flush_struct hrun h with
      ⟨s1, trP, s3, trR, b3, s4, trU, b4, _, _, _, _, _, hs, _, hclock⟩
    refine ⟨fun _ => hclock, fun hc => absurd hc (by simp [hrun]), ?_⟩
    rw [hclock]
    exact Nat.le_succ s.clock
  | true =>
    rw [flush_reentrant hrun] at h
    cases h
    exact ⟨fun hc => absurd hc (by simp [hrun]), fun _ => rfl, Nat.le_refl _⟩

theorem fsAux_ok_quiescent {gas gl gq dgas : Nat} :
    ∀ {s : St} {r}, fsAux gas gl gq dgas s = some (.ok r) →
      r.1.scheduled = false := by
  induction gas with
  | zero =>
    intro s r h
    rw [fsAux] at h
    split at h
    · cases h
    · rename_i hs
      cases h
      simpa using hs
  | succ g ih =>
    intro s r h
    rw [fsAux] at h
    split at h
    · split at h
      · cases h
      · rename_i s1 tr1 hf
        split at h
        · cases h
        · cases h
        · rename_i s2 tr2 hrec
          have := ih hrec
          cases h
          exact this
    · rename_i hs
      cases h
      simpa using hs

theorem fsAux_clock_mono {gas gl gq dgas : Nat} :
    ∀ {s : St} {r}, fsAux gas gl gq dgas s = some (.ok r) →
      s.clock ≤ r.1.clock := by
  induction gas with
  | zero =>
    intro s r h
    rw [fsAux] at h
    split at h
    · cases h
    · cases h; exact Nat.le_refl _
  | succ g ih =>
    intro s r h
    rw [fsAux] at h
    split at h
    · split at h
      · cases h
      · rename_i s1 tr1 hf
        split at h
        · cases h
        · cases h
        · rename_i s2 tr2 hrec
          have := ih hrec
          cases h
          exact Nat.le_trans (flush_clock hf).2.2 this
    · cases h; exact Nat.le_refl _

theorem fsAux_idle {gas gl gq dgas : Nat} {s : St} (h : s.scheduled = false) :
    fsAux gas gl gq dgas s = some (.ok (s, [])) := by
  cases gas with
  | zero => rw [fsAux]; simp [h]
  | succ g => rw [fsAux]; simp [h]

theorem fsAux_exhausted {gl gq dgas : Nat} {s : St} (h : s.scheduled = true) :
    fsAux 0 gl gq dgas s = some (.error "Potential Infinite Loop Detected.") := by
  rw [fsAux]
  simp [h]

/-- The state of a pending cyclic update: the user-tier entry sits in
`_queues[0]` and `_queues[2]` (both pushed by `enqueue`), its stamp equals
the current clock, and `scheduled` is set. -/
def cycSt (c : Nat) : St :=
  ⟨.mk false [Task.cyclic 99 [] .user c] [] [Task.cyclic 99 [] .user c] [], c, true⟩

set_option maxHeartbeats 1600000 in
theorem flush_cyc (c : Nat) :
    flush 2 2 2 (cycSt c) = some (cycSt (c + 1), [Ev.tick, Ev.task 99]) := by
  simp [cycSt, flush, pureLoop, runQ, runChildren, ownDrain, drainPure, popPure,
    getNode, runTask, snapshotDrain, runList, setSlot, setQ0, setRunning,
    childCount, St.enqueue, modifyNode, pushLocal, QTree.children, QTree.q0,
    QTree.slot, QTree.q1, QTree.q2, QTree.running, Nat.succ_ne_self]

theorem fsAux_cyc : ∀ (g c : Nat),
    fsAux g 2 2 2 (cycSt c) =
      some (.error "Potential Infinite Loop Detected.") := by
  intro g
  induction g with
  | zero => intro c; exact fsAux_exhausted rfl
  | succ g ih =>
    intro c
    have hs : (cycSt c).scheduled = true := rfl
    simp only [fsAux, hs, if_true, flush_cyc, ih]

/-! ## Claim theorems: scheduler -/

/-- The phase decomposition of a successful non-re-entrant `flush`:
the pure loop runs first (leaving the flushed queue's own pure slot empty and
the clock untouched), then the clock increments (`Ev.tick`), then the render
pass, then the user pass. -/
def FlushStruct (gl gq dgas : Nat) (s s' : St) (tr : List Ev) : Prop :=
  ∃ s1 trP s3 trR b3 s4 trU b4,
    pureLoop gl gq dgas { s with tree := setRunning true s.tree } = some (s1, trP) ∧
    s1.tree.q0.isEmpty = true ∧
    s1.clock = s.clock ∧
    runQ gq dgas .render [] { s1 with clock := s1.clock + 1, scheduled := false } =
      some (s3, trR, b3) ∧
    runQ gq dgas .user [] s3 = some (s4, trU, b4) ∧
    s' = { s4 with tree := setRunning false s4.tree } ∧
    tr = trP ++ Ev.tick :: (trR ++ trU) ∧
    s'.clock = s.clock + 1

/-- An empty root queue. -/
def exTree : QTree := .mk false [] [] [] []

/-- A root queue on which a user-tier entry (id 10) and then a render-tier
entry (id 20) have been enqueued: `enqueue` put both into `_queues[0]` and
each into its own tier slot. -/
def exOrder : St :=
  ((⟨exTree, 0, false⟩ : St).enqueue [] .user (.mk 10 []))
    |>.enqueue [] .render (.mk 20 [])

/-- A root with two children A (index 0, empty) and B (index 1) whose pure
slot holds an entry (id 30) that enqueues a pure entry (id 31) onto A. -/
def exLeftover : St :=
  ⟨.mk false [] [] []
     [.mk false [] [] [] [],
      .mk false [Task.mk 30 [([0], .pure, .mk 31 [])]] [] [] []],
   0, true⟩

/-- C1, counterexample.  First conjunct: flushing `exOrder` yields the trace
`[task 10, task 20, tick, task 20, task 10]` — the user-tier entry (10) runs
(its `_queues[0]` copy) before the render-tier entry (20) ever runs, so it is
not the case that within one flush every render-tier effect runs strictly
before every user-tier effect.  Second conjunct: flushing `exLeftover` ends
with child A's pure slot non-empty (`isEmpty = false`) and a trace in which
task 31 never ran — pure work enqueued into an already-visited sibling
survives the "fixed point", so the flush does not run pure work until none
remains anywhere in the subtree. -/
theorem c1_counterexample :
    (flush 5 5 9 exOrder).map Prod.snd =
      some [Ev.task 10, Ev.task 20, Ev.tick, Ev.task 20, Ev.task 10] ∧
    (flush 5 5 9 exLeftover).map
        (fun r => ((getNode r.1.tree [0]).map (fun n => n.q0.isEmpty), r.2)) =
      some (some false, [Ev.task 30, Ev.tick]) :=
  ⟨rfl, rfl⟩

/-- C1 (amended).  A re-entrant `flush` on a queue whose running flag is set
returns immediately, running no slot and leaving the state (clock included)
unchanged.  A non-re-entrant successful `flush` decomposes into: the pure
loop (whose final pass reported no more work, so the flushed queue's own pure
slot is empty — pure work pushed into an already-visited descendant during
the pass may survive), then the clock increment, then the full render pass,
then the full user pass; so the render-slot drain precedes the user-slot
drain in the trace.  (Render/user closures additionally sit in `_queues[0]`
and therefore also run during the pure phase, which is why the original
strict render-before-user ordering fails; see `c1_counterexample`.) -/
theorem c1_flush_phases (gl gq dgas : Nat) (s s' : St) (tr : List Ev) :
    (s.tree.running = true → flush gl gq dgas s = some (s, [])) ∧
    (s.tree.running = false → flush gl gq dgas s = some (s', tr) →
      FlushStruct gl gq dgas s s' tr) :=
  ⟨fun h => flush_reentrant h, fun hr h => flush_struct hr h⟩

/-- C1, witness: the re-entrancy branch at a running queue, and the phase
decomposition applied to the concrete flush of `exOrder`. -/
theorem c1_witness :
    flush 2 2 2 (⟨QTree.mk true [] [] [] [], 7, false⟩ : St) =
      some (⟨QTree.mk true [] [] [] [], 7, false⟩, []) ∧
    (∃ r, flush 5 5 9 exOrder = some r ∧ r.1.clock = exOrder.clock + 1) := by
  constructor
  · exact (c1_flush_phases 2 2 2 ⟨QTree.mk true [] [] [] [], 7, false⟩
      ⟨QTree.mk true [] [] [] [], 7, false⟩ []).1 rfl
  · obtain ⟨s1, trP, s3, trR, b3, s4, trU, b4, _, _, _, _, _, _, _, hclock⟩ :=
      (c1_flush_phases 5 5 9 exOrder _ _).2 rfl rfl
    exact ⟨_, rfl, hclock⟩

/-- C2.  The clock discipline: `getClock` reads the module clock; `enqueue`,
running an entry, `Queue.run` and the pure loop never change it; a flush on a
non-running queue increments it by exactly one (a re-entrant flush returns
the state unchanged), and the clock never decreases; in the flush trace the
single `tick` sits between the pure fixed-point trace and the render/user
trace, with the clock still unchanged at the end of the pure loop; and
`flushSync`'s loop only ever grows the clock. -/
theorem c2_clock_discipline :
    (∀ s : St, getClock s = s.clock) ∧
    (∀ (s : St) (p : List Nat) (tier : Tier) (t : Task),
      getClock (s.enqueue p tier t) = getClock s) ∧
    (∀ (s : St) (t : Task), getClock (runTask s t).1 = getClock s) ∧
    (∀ (gas dgas : Nat) (tier : Tier) (p : List Nat) (s : St) r,
      runQ gas dgas tier p s = some r → getClock r.1 = getClock s) ∧
    (∀ (gas gq dgas : Nat) (s : St) r,
      pureLoop gas gq dgas s = some r → getClock r.1 = getClock s) ∧
    (∀ (gl gq dgas : Nat) (s : St) r, flush gl gq dgas s = some r →
      (s.tree.running = false → getClock r.1 = getClock s + 1) ∧
      (s.tree.running = true → r.1 = s) ∧
      getClock s ≤ getClock r.1) ∧
    (∀ (gl gq dgas : Nat) (s s' : St) (tr : List Ev),
      s.tree.running = false → flush gl gq dgas s = some (s', tr) →
      ∃ s1 trP rest,
        pureLoop gl gq dgas { s with tree := setRunning true s.tree } = some (s1, trP) ∧
        getClock s1 = getClock s ∧ tr = trP ++ Ev.tick :: rest) ∧
    (∀ (gas gl gq dgas : Nat) (s : St) r,
      fsAux gas gl gq dgas s = some (.ok r) → getClock s ≤ getClock r.1) := by
  refine ⟨fun _ => rfl, fun _ _ _ _ => rfl, fun s t => (runTask_pres s t).1,
    fun _ _ _ _ _ _ h => (runQ_pres h).1,
    fun _ _ _ _ _ h => (pureLoop_pres h).1,
    fun _ _ _ _ _ h => flush_clock h,
    fun gl gq dgas s s' tr hr h => ?_,
    fun _ _ _ _ _ _ h => fsAux_clock_mono h⟩
  obtain ⟨s1, trP, s3, trR, b3, s4, trU, b4, hpl, _, hc1, _, _, _, htr, _⟩ :=
    flush_struct hr h
  exact ⟨s1, trP, trR ++ trU, hpl, hc1, htr⟩

/-- C2, witness: the conjuncts applied at concrete states; in particular a
concrete flush increments the clock by exactly one. -/
theorem c2_witness :
    getClock (⟨exTree, 3, false⟩ : St) = 3 ∧
    (∃ r, flush 2 2 2 (⟨exTree, 3, true⟩ : St) = some r ∧
      getClock r.1 = getClock (⟨exTree, 3, true⟩ : St) + 1) := by
  refine ⟨c2_clock_discipline.1 _, ⟨(⟨exTree, 4, false⟩, [Ev.tick]), rfl, ?_⟩⟩
  exact (c2_clock_discipline.2.2.2.2.2.1 2 2 2 ⟨exTree, 3, true⟩
    (⟨exTree, 4, false⟩, [Ev.tick]) rfl).1 rfl

/-- C3.  `flushSync` (dev mode): when no reschedule is pending it returns at
once having flushed nothing; when it returns normally no reschedule is
pending anymore (it repeats while one is); when the iteration budget is
exhausted with a reschedule still pending it aborts with the infinite-loop
diagnostic; and on the clock-gated cyclic-update state `cycSt` (an effect
writing the signal it reads) it aborts with that diagnostic instead of
looping forever. -/
theorem c3_flushSync_guard :
    (∀ (gl gq dgas : Nat) (s : St), s.scheduled = false →
      flushSyncDev gl gq dgas s = some (.ok (s, []))) ∧
    (∀ (gl gq dgas : Nat) (s : St) r,
      flushSyncDev gl gq dgas s = some (.ok r) → r.1.scheduled = false) ∧
    (∀ (gl gq dgas : Nat) (s : St), s.scheduled = true →
      fsAux 0 gl gq dgas s = some (.error "Potential Infinite Loop Detected.")) ∧
    (∀ c : Nat, flushSyncDev 2 2 2 (cycSt c) =
      some (.error "Potential Infinite Loop Detected.")) :=
  ⟨fun _ _ _ _ h => fsAux_idle h,
   fun _ _ _ _ _ h => fsAux_ok_quiescent h,
   fun _ _ _ _ h => fsAux_exhausted h,
   fun c => fsAux_cyc 99999 c⟩

/-- C3, witness: an idle state returns unchanged; the cyclic state aborts. -/
theorem c3_witness :
    flushSyncDev 2 2 2 (⟨exTree, 0, false⟩ : St) =
      some (.ok (⟨exTree, 0, false⟩, [])) ∧
    flushSyncDev 2 2 2 (cycSt 0) =
      some (.error "Potential Infinite Loop Detected.") :=
  ⟨c3_flushSync_guard.1 2 2 2 _ rfl, c3_flushSync_guard.2.2.2 0⟩

/-- The conclusion of the `Queue.run` structure theorem (see
`c6_run_structure`). -/
def RunStruct (g dgas : Nat) (tier : Tier) (p : List Nat) (s s' : St)
    (tr : List Ev) (b : Bool) : Prop :=
  (∃ s1 tr1 s2 tr2 rer,
    ownDrain dgas tier p s = some (s1, tr1) ∧
    runChildren g dgas tier p (List.range (childCount s1 p)) s1 =
      some (s2, tr2, rer) ∧
    tr = tr1 ++ tr2 ∧ s' = s2 ∧
    (tier = .pure → (getNode s1.tree p).map QTree.q0 = some [] ∧
      ∃ n2, getNode s2.tree p = some n2 ∧ b = (rer || !n2.q0.isEmpty) ∧
        (b = true ↔ rer = true ∨ n2.q0 ≠ [])) ∧
    (tier ≠ .pure → b = false)) ∧
  (∀ s0 : St, runChildren (g + 1) dgas tier p [] s0 = some (s0, [], false)) ∧
  (∀ (i : Nat) (rest : List Nat) (s0 : St) r0,
    runChildren (g + 1) dgas tier p (i :: rest) s0 = some r0 →
    ∃ sA trA bA sB trB bB,
      runQ g dgas tier (p ++ [i]) s0 = some (sA, trA, bA) ∧
      runChildren g dgas tier p rest sA = some (sB, trB, bB) ∧
      r0 = (sB, trA ++ trB, bA || bB))

/-- C6.  `run(tier)` first drains the queue's named slot (for the pure tier
this empties its own pure slot; for render/user the slot is snapshotted,
cleared and the snapshot run), then runs the children in insertion order
(indices `0, 1, ...` of `_children`), concatenating traces and folding the
children's pure results with `||`; for the pure tier the returned boolean is
`childrenReported || !ownPureSlotEmpty` evaluated on the final state, i.e.
`true` exactly when the queue's own pure slot is non-empty after the drain or
some child reported more work; non-pure runs report nothing (`false`). -/
theorem c6_run_structure (g dgas : Nat) (tier : Tier) (p : List Nat)
    (s s' : St) (tr : List Ev) (b : Bool)
    (hp : (getNode s.tree p).isSome = true)
    (h : runQ (g + 1) dgas tier p s = some (s', tr, b)) :
    RunStruct g dgas tier p s s' tr b := by
  refine ⟨?_, ?_, ?_⟩
  · rw [runQ] at h
    split at h
    · exact absurd h (by simp)
    · rename_i s1 tr1 hown
      split at h
      · exact absurd h (by simp)
      · rename_i s2 tr2 rer hch
        have hp1 : (getNode s1.tree p).isSome = true := by
          rw [(ownDrain_pres hown).2 p]; exact hp
        have hp2 : (getNode s2.tree p).isSome = true := by
          rw [(runChildren_pres hch).2 p]; exact hp1
        rcases Option.isSome_iff_exists.1 hp2 with ⟨n2, hn2⟩
        cases tier with
        | pure =>
          simp only [hn2] at h
          injection h with h1
          injection h1 with hA hBC
          injection hBC with hB hC
          subst hA; subst hB; subst hC
          refine ⟨s1, tr1, s2, tr2, rer, hown, hch, rfl, rfl, fun _ => ?_, by simp⟩
          refine ⟨drainPure_empty hown hp, n2, hn2, rfl, ?_⟩
          simp [List.isEmpty_iff]
        | render =>
          simp only at h
          injection h with h1
          injection h1 with hA hBC
          injection hBC with hB hC
          subst hA; subst hB; subst hC
          exact ⟨s1, tr1, s2, tr2, rer, hown, hch, rfl, rfl, by simp, fun _ => rfl⟩
        | user =>
          simp only at h
          injection h with h1
          injection h1 with hA hBC
          injection hBC with hB hC
          subst hA; subst hB; subst hC
          exact ⟨s1, tr1, s2, tr2, rer, hown, hch, rfl, rfl, by simp, fun _ => rfl⟩
  · intro s0
    rw [runChildren]
  · intro i rest s0 r0 h0
    rw [runChildren] at h0
    split at h0
    · exact absurd h0 (by simp)
    · rename_i sA trA bA hq
      split at h0
      · exact absurd h0 (by simp)
      · rename_i sB trB bB hcr
        rw [Option.some_inj] at h0
        exact ⟨sA, trA, bA, sB, trB, bB, hq, hcr, h0.symm⟩

/-- C6, witness: the structure theorem applied to a concrete pure run of an
empty root queue. -/
def c6ex : St := ⟨.mk false [] [] [] [], 0, false⟩

/-- C6, witness. -/
theorem c6_witness : RunStruct 1 1 .pure [] c6ex c6ex [] false :=
  c6_run_structure 1 1 .pure [] c6ex c6ex [] false rfl rfl

/-! ## Claim theorems: effect closures, notify, async, Subject, context -/

/-- C4, counterexample.  When `compute` throws `NotReadyError` the effect is
NOT suppressed: the catch block does nothing and control falls through to the
unconditional `queue?.enqueue(EFFECT_USER, ...)`, so the effect closure is
enqueued (first two conjuncts: `enqueued = true`, cell unchanged) and, when
the user phase drains it, the side-effecting `effect` runs with the stale
`current`/`prev` values (third conjunct).  Moreover an exception other than
`NotReady` with no error handler installed is swallowed: `error?.(e)` is
`undefined` and throws nothing, so the queue is never notified and nothing
propagates (fourth/fifth conjuncts: `thrown = none`, events are just the old
cleanup — no `notifyCall`). -/
theorem c4_counterexample :
    (computeBody (plainChain 0) none .notReady ⟨7, 7, none⟩).enqueued = true ∧
    (computeBody (plainChain 0) none .notReady ⟨7, 7, none⟩).cell = ⟨7, 7, none⟩ ∧
    (effectBody (plainChain 0) (.ret none) ⟨7, 7, none⟩).events = [.effectRun 7 7] ∧
    (computeBody (plainChain 0) none (.err 3) ⟨7, 7, some 1⟩).thrown = none ∧
    (computeBody (plainChain 0) none (.err 3) ⟨7, 7, some 1⟩).events = [.cleanupRun 1] :=
  ⟨rfl, rfl, rfl, rfl, rfl⟩

/-- C4 (amended).  The compute closure of `createEffect`: a successful
compute stores the new `current` and enqueues the effect; `NotReady` leaves
the cell untouched but still enqueues the effect (which will run with the
previous value); any other exception first runs the previous cleanup, then —
with no handler installed — silently sets `cleanup` to `undefined` and still
enqueues (nothing is notified or re-thrown); with a handler that returns, the
returned value becomes the new cleanup and the effect is enqueued; only when
the handler itself throws is `queue.notify(node, ERROR_BIT, ERROR_BIT)`
consulted: if it absorbs the error the effect is still enqueued, and if it
returns `false` the handler's exception propagates and the enqueue is
skipped. -/
theorem c4_effect_compute (q : NQueue) (hopt : Option (Nat → HRes))
    (hnd : Nat → HRes) (c : EffectCell) (v e e2 : Nat) (cl : Option Nat) :
    computeBody q hopt (.val v) c = ⟨{ c with current := v }, [], true, none⟩ ∧
    computeBody q hopt .notReady c = ⟨c, [], true, none⟩ ∧
    computeBody q none (.err e) c =
      ⟨{ c with cleanup := none }, cleanupEvs c, true, none⟩ ∧
    (hnd e = .ret cl →
      computeBody q (some hnd) (.err e) c =
        ⟨{ c with cleanup := cl }, cleanupEvs c ++ [.handlerRun e], true, none⟩) ∧
    (hnd e = .throws e2 → q.notify ⟨0, ERROR_BIT, ERROR_BIT⟩ = true →
      computeBody q (some hnd) (.err e) c =
        ⟨c, cleanupEvs c ++ [.handlerRun e, .notifyCall true], true, none⟩) ∧
    (hnd e = .throws e2 → q.notify ⟨0, ERROR_BIT, ERROR_BIT⟩ = false →
      computeBody q (some hnd) (.err e) c =
        ⟨c, cleanupEvs c ++ [.handlerRun e, .notifyCall false], false, some e2⟩) := by
  refine ⟨rfl, rfl, rfl, fun hh => ?_, fun hh hb => ?_, fun hh hb => ?_⟩
  · simp [computeBody, hh]
  · simp [computeBody, hh, hb]
  · simp [computeBody, hh, hb]

/-- C4, witness: a throwing handler over a boundary-free queue propagates
after `notify` returns `false`; `NotReady` leaves the cell as it was and
still enqueues. -/
theorem c4_witness :
    computeBody (plainChain 0) (some (fun _ => .throws 9)) (.err 3) ⟨7, 7, some 1⟩ =
      ⟨⟨7, 7, some 1⟩, [.cleanupRun 1, .handlerRun 3, .notifyCall false], false, some 9⟩ ∧
    computeBody (plainChain 0) none .notReady ⟨7, 7, none⟩ =
      ⟨⟨7, 7, none⟩, [], true, none⟩ := by
  have h := c4_effect_compute (plainChain 0) none (fun _ => HRes.throws 9)
    ⟨7, 7, some 1⟩ 0 3 9 none
  have h2 := c4_effect_compute (plainChain 0) none (fun _ => HRes.throws 9)
    ⟨7, 7, none⟩ 0 3 9 none
  exact ⟨h.2.2.2.2.2 rfl rfl, h2.2.1⟩

/-- C5.  `Queue.notify` with no intercepting boundary forwards the untouched
argument triple to the parent and returns `false` at a queue with no parent
(hence `false` along any chain of base queues); and an error thrown inside an
effect body — which consults no error handler — is passed to
`queue.notify(node, ERROR_BIT, ERROR_BIT)` and, when that returns `false`,
re-raises out of the closure (and hence out of the flush that ran it). -/
theorem c5_notify_forwarding (p q : NQueue) (a : NotifyArgs) (n : Nat)
    (c : EffectCell) (e : Nat)
    (hq : q.notify ⟨0, ERROR_BIT, ERROR_BIT⟩ = false) :
    NQueue.notify (.plain (some p)) a = p.notify a ∧
    NQueue.notify (.plain none) a = false ∧
    (plainChain n).notify a = false ∧
    (effectBody q (.throws e) c).thrown = some e ∧
    (effectBody q (.throws e) c).events =
      cleanupEvs c ++ [.effectRun c.current c.prev, .notifyCall false] := by
  refine ⟨rfl, rfl, ?_, ?_, ?_⟩
  · induction n with
    | zero => rfl
    | succ m ih => simpa [plainChain, NQueue.notify] using ih
  · simp [effectBody, hq]
  · simp [effectBody, hq]

/-- C5, witness: a chain of four base queues returns `false`, and a throwing
effect body over it re-raises its error. -/
theorem c5_witness :
    (plainChain 3).notify ⟨0, ERROR_BIT, ERROR_BIT⟩ = false ∧
    (effectBody (plainChain 3) (.throws 4) ⟨1, 0, none⟩).thrown = some 4 := by
  have h := c5_notify_forwarding (plainChain 2) (plainChain 3)
    ⟨0, ERROR_BIT, ERROR_BIT⟩ 3 ⟨1, 0, none⟩ 4 rfl
  exact ⟨h.2.2.1, h.2.2.2.1⟩

/-- C7, counterexample.  After an effect invocation returned a cleanup
(id 5), that cleanup is pending inside the closure state (first conjunct),
but disposing the owning scope runs exactly the disposers registered via
`onCleanup` — and `createEffect` registers none — so disposal calls no
cleanup at all (second conjunct): the cleanup is NOT called on disposal of
the owning scope. -/
theorem c7_counterexample :
    (effectBody (plainChain 0) (.ret (some 5)) ⟨1, 0, none⟩).cell.cleanup = some 5 ∧
    disposeOwner createEffectRegistrations = [] :=
  ⟨rfl, rfl⟩

/-- C7 (amended).  In both effect tiers the previous invocation's cleanup
(`cleanup?.()`) runs strictly before the effect body's next invocation —
first event(s) `cleanupRun`, then `effectRun` — but the cleanup is not called
on disposal of the owning scope, since `createEffect`/`createRenderEffect`
register nothing with the owner. -/
theorem c7_cleanup_order (q : NQueue) (res : ERes) (c : EffectCell) (id : Nat) :
    (∃ rest, (effectBody q res c).events =
      cleanupEvs c ++ EffEv.effectRun c.current c.prev :: rest) ∧
    (∃ rest, (renderEffectBody q res c).events =
      cleanupEvs c ++ EffEv.effectRun c.current c.prev :: rest) ∧
    (c.cleanup = some id → cleanupEvs c = [EffEv.cleanupRun id]) ∧
    disposeOwner createEffectRegistrations = [] := by
  refine ⟨?_, ?_, fun h => by simp [cleanupEvs, h], rfl⟩
  · cases res with
    | ret cl => exact ⟨[], rfl⟩
    | throws e =>
      cases hb : q.notify ⟨0, ERROR_BIT, ERROR_BIT⟩ with
      | true => exact ⟨[.notifyCall true], by simp [effectBody, hb]⟩
      | false => exact ⟨[.notifyCall false], by simp [effectBody, hb]⟩
  · cases res with
    | ret cl => exact ⟨[], rfl⟩
    | throws e =>
      cases hb : q.notify ⟨0, ERROR_BIT, ERROR_BIT⟩ with
      | true => exact ⟨[.notifyCall true], by simp [renderEffectBody, hb]⟩
      | false => exact ⟨[.notifyCall false], by simp [renderEffectBody, hb]⟩

/-- C7, witness: with a pending cleanup (id 8) the cleanup event precedes the
effect event. -/
theorem c7_witness :
    cleanupEvs ⟨2, 1, some 8⟩ = [EffEv.cleanupRun 8] ∧
    (∃ rest, (effectBody (plainChain 0) (.ret none) ⟨2, 1, some 8⟩).events =
      cleanupEvs ⟨2, 1, some 8⟩ ++ EffEv.effectRun 2 1 :: rest) := by
  have h := c7_cleanup_order (plainChain 0) (.ret none) ⟨2, 1, some 8⟩ 8
  exact ⟨h.2.2.1 rfl, h.1⟩

/-- C8.  Once the owner of an in-flight `createAsync` / `unwrapPromise`
operation is disposed — disposal runs the registered cleanup, which sets the
closure-captured `aborted` flag — every resumption (promise fulfilment or
rejection, iterator value or failure) short-circuits: no `setSignal` write
and no observer `next`/`error` call happens (the state is returned
unchanged).  Without disposal the resumptions do deliver. -/
theorem c8_async_abort (c : AsyncCell) (v e : Nat) (h : c.aborted = false) :
    asyncResolve (disposeAsyncOwner c) v = disposeAsyncOwner c ∧
    asyncReject (disposeAsyncOwner c) e = disposeAsyncOwner c ∧
    upResolve (disposeAsyncOwner c) v = disposeAsyncOwner c ∧
    upReject (disposeAsyncOwner c) e = disposeAsyncOwner c ∧
    (asyncResolve c v).written = c.written ++ [v] ∧
    (asyncReject c e).written = c.written ++ [e] ∧
    (upResolve c v).obsCalls = c.obsCalls ++ [.ok v] ∧
    (upReject c e).obsCalls = c.obsCalls ++ [.error e] := by
  simp [asyncResolve, asyncReject, upResolve, upReject, disposeAsyncOwner, h]

/-- C8, witness: a disposed pending operation ignores its resumption; a live
one writes. -/
theorem c8_witness :
    asyncResolve (disposeAsyncOwner ⟨false, [], []⟩) 1 = disposeAsyncOwner ⟨false, [], []⟩ ∧
    (asyncResolve ⟨false, [], []⟩ 1).written = [1] := by
  have h := c8_async_abort ⟨false, [], []⟩ 1 2 rfl
  exact ⟨h.1, h.2.2.2.2.1⟩

/-- C9.  `Subject.wait()` is idempotent between deliveries: from a
non-waiting state it sets `waiting` and forwards one `wait` to every
subscribed observer; a second `wait()` with no intervening `next()` forwards
nothing, so two consecutive waits forward exactly one wait per observer;
`next(v)` clears `waiting` and forwards `v` to every subscribed observer,
after which `wait()` forwards again. -/
theorem c9_subject_wait_idempotent (s : SubjectSt) (v : Nat)
    (h : s.waiting = false) :
    subjectWait s = ({ s with waiting := true }, s.observers.map SubEv.waitEv) ∧
    (subjectWait (subjectWait s).1).2 = [] ∧
    (subjectWait s).2 ++ (subjectWait (subjectWait s).1).2 =
      s.observers.map SubEv.waitEv ∧
    subjectNext s v =
      ({ s with waiting := false }, s.observers.map (fun o => SubEv.nextEv o v)) ∧
    (subjectWait (subjectNext s v).1).2 = s.observers.map SubEv.waitEv ∧
    (subjectWait (subjectNext s v).1).1.waiting = true := by
  simp [subjectWait, subjectNext, h]

/-- C9, witness: two observers, two consecutive waits forward one wait each;
after a `next` the wait forwards again. -/
theorem c9_witness :
    (subjectWait ⟨false, [4, 6]⟩).2 ++ (subjectWait (subjectWait ⟨false, [4, 6]⟩).1).2 =
      [SubEv.waitEv 4, SubEv.waitEv 6] ∧
    (subjectWait (subjectNext ⟨false, [4, 6]⟩ 9).1).2 =
      [SubEv.waitEv 4, SubEv.waitEv 6] := by
  have h := c9_subject_wait_idempotent ⟨false, [4, 6]⟩ 9 rfl
  exact ⟨h.2.2.1, h.2.2.2.2.1⟩

/-- C10.  `withContext(context, fn)` installs `context` (the body runs under
it), returns `fn`'s result; when `fn` returns normally the previously current
context is restored, but when `fn` throws the restoring assignment is skipped
(there is no `try`/`finally`), so the context `fn` finished under — the
installed one, when `fn` did not reassign it — stays current. -/
theorem c10_withContext_frame (ctx cur : Option Nat)
    (fn : Option Nat → Except Nat Nat × Option Nat) (v e : Nat) :
    (withContext ctx fn cur).1 = (fn ctx).1 ∧
    ((fn ctx).1 = .ok v → (withContext ctx fn cur).2 = cur) ∧
    ((fn ctx).1 = .error e → (withContext ctx fn cur).2 = (fn ctx).2) ∧
    (withContext ctx (fun c => (.error e, c)) cur).2 = ctx := by
  refine ⟨?_, fun hf => by simp [withContext, hf], fun hf => by simp [withContext, hf], rfl⟩
  cases hf : (fn ctx).1 <;> simp [withContext, hf]

/-- C10, witness: a normal body restores the previous context; a throwing
body leaves the installed context current. -/
theorem c10_witness :
    (withContext (some 1) (fun _ => (.ok 5, some 1)) (some 0)).2 = some 0 ∧
    (withContext (some 1) (fun c => (.error 7, c)) (some 0)).2 = some 1 := by
  have h := c10_withContext_frame (some 1) (some 0)
    (fun _ => (Except.ok 5, some 1)) 5 7
  exact ⟨h.2.1 rfl, h.2.2.2⟩

end SignalsProof
